import Mathlib

/-!
Verification of the SimpleFinances transaction analytics engine, a shallow
embedding of the `stats` computation in `src/src/App.tsx` (the pure block
that turns a list of accounts with transactions into net worth, 30-day
spending, and detected subscriptions).

Modelling conventions:
* JavaScript numbers are modelled as rationals (`ℚ`); every arithmetic
  operation the engine performs (addition, subtraction, absolute value,
  division by a nonzero constant or by a positive average, comparisons)
  is exact real arithmetic in the source's intent, so `ℚ` is a faithful
  carrier.
* `parseFloat` on the `balance` / `amount` decimal strings happens at the
  input boundary; the embedding takes the already-parsed rational, which
  is the value every claim quantifies over.
* JavaScript records (`Record<string, ...>`) are modelled as association
  lists in insertion order, matching the JS string-key iteration order
  for the non-numeric keys the engine produces.
* `Array.prototype.sort` (stable since ES2019) is modelled by Mathlib's
  stable `List.insertionSort` with the comparator's preorder.
-/

namespace SimpleFinances

/-- A raw transaction as fetched: `{id, posted, amount, description}` with
`amount` already parsed to a rational (`parseFloat` at the boundary). -/
structure RawTx where
  id : String
  posted : ℚ
  amount : ℚ
  description : String
deriving DecidableEq, Inhabited

/-- A raw account: `{id, name, balance, transactions}` with `balance`
already parsed to a rational. -/
structure Account where
  id : String
  name : String
  balance : ℚ
  transactions : List RawTx
deriving DecidableEq, Inhabited

/-- A normalized transaction as built by `allTransactions` in the source:
the raw transaction enriched with the owning account id and display name,
a parsed numeric amount and a normalized-to-seconds timestamp. -/
structure NormTx where
  id : String
  posted : ℚ
  amountNum : ℚ
  description : String
  accountId : String
  accountName : String
deriving DecidableEq, Inhabited

/-- Does `needle` occur at the head of `hay`? Helper for the substring
test used by `getAccountType` (`String.prototype.includes`). -/
def matchesHead : List Char → List Char → Bool
  | [], _ => true
  | _ :: _, [] => false
  | c :: cs, d :: ds => c == d && matchesHead cs ds

/-- Does `needle` occur contiguously anywhere in `hay`? -/
def containsSeq (needle : List Char) : List Char → Bool
  | [] => matchesHead needle []
  | d :: ds => matchesHead needle (d :: ds) || containsSeq needle ds

/-- `hay.includes(needle)` on strings. -/
def strIncludes (hay needle : String) : Bool :=
  containsSeq needle.toList hay.toList

/-- `getAccountType` from `App.tsx`: case-insensitive substring
classification of an account name, first match wins. -/
def getAccountType (name : String) : String :=
  let n := name.toLower
  if strIncludes n "checking" || strIncludes n "spending" then "Checking"
  else if strIncludes n "savings" || strIncludes n "reserve" then "Savings"
  else if strIncludes n "credit" || strIncludes n "card" || strIncludes n "visa" ||
      strIncludes n "amex" || strIncludes n "mastercard" then "Credit Card"
  else if strIncludes n "investment" || strIncludes n "brokerage" || strIncludes n "ira" ||
      strIncludes n "401k" then "Investment"
  else "Other"

/-- The timestamp normalizer from `allTransactions`:
`t.posted > 2000000000 ? t.posted / 1000 : t.posted`. -/
def normalizePosted (p : ℚ) : ℚ :=
  if 2000000000 < p then p / 1000 else p

/-- `allTransactions` from `App.tsx`: flatten every account's transactions,
normalizing the timestamp and attaching the owning account's id and name. -/
def allTransactions (accounts : List Account) : List NormTx :=
  (accounts.map fun acc =>
    acc.transactions.map fun t =>
      { id := t.id
        posted := normalizePosted t.posted
        amountNum := t.amount
        description := t.description
        accountId := acc.id
        accountName := acc.name }).flatten

/-- The three net-worth accumulators of the `data.accounts.forEach` loop. -/
structure NetWorthAcc where
  netWorth : ℚ
  assets : ℚ
  liabilities : ℚ
deriving DecidableEq

/-- One iteration of the net-worth loop: credit cards subtract `|bal|`
from net worth and add it to liabilities; every other account adds the
signed balance to net worth, to assets when positive, else `|bal|` to
liabilities. -/
def netWorthStep (s : NetWorthAcc) (acc : Account) : NetWorthAcc :=
  let bal := acc.balance
  if getAccountType acc.name = "Credit Card" then
    { s with netWorth := s.netWorth - |bal|, liabilities := s.liabilities + |bal| }
  else
    { netWorth := s.netWorth + bal
      assets := if 0 < bal then s.assets + bal else s.assets
      liabilities := if 0 < bal then s.liabilities else s.liabilities + |bal| }

/-- The net-worth aggregation over all accounts, starting from zeros. -/
def netWorthAgg (accounts : List Account) : NetWorthAcc :=
  accounts.foldl netWorthStep ⟨0, 0, 0⟩

/-- The body of the `allTransactions.some(other => ...)` scan inside
`isTransfer`: `other` matches `t` when the ids differ, the amounts cancel
within `0.001`, and the normalized timestamps are within `259200` seconds. -/
def transferMatch (t other : NormTx) : Bool :=
  other.id != t.id &&
    decide (|other.amountNum + t.amountNum| < 1 / 1000) &&
    decide (|other.posted - t.posted| < 259200)

/-- `isTransfer` from `App.tsx`: a transaction is a transfer when some
transaction anywhere in the full normalized list matches it. -/
def isTransfer (all : List NormTx) (t : NormTx) : Bool :=
  all.any fun other => transferMatch t other

/-- Accumulators of the spending half of the `allTransactions.forEach`
loop: the running 30-day total and the per-account-name record
(`Record<string, number>` as an insertion-ordered association list). -/
structure SpendAcc where
  total : ℚ
  byAccount : List (String × ℚ)
deriving DecidableEq

/-- `spendingByAccount[name] = (spendingByAccount[name] || 0) + v`:
add `v` to the entry for `name`, appending a fresh entry when absent. -/
def bumpAccount (name : String) (v : ℚ) :
    List (String × ℚ) → List (String × ℚ)
  | [] => [(name, v)]
  | (n, x) :: rest =>
      if n = name then (n, x + v) :: rest
      else (n, x) :: bumpAccount name v rest

/-- Value of a key in the association list, `0` when absent (the JS
`|| 0` default; keys are unique so the first hit is the only one). -/
def lookupQ (name : String) : List (String × ℚ) → ℚ
  | [] => 0
  | (n, x) :: rest => if n = name then x else lookupQ name rest

/-- The spend guard `t.posted >= monthAgo && amt < 0 && !isTransfer(t)`. -/
def spendCond (all : List NormTx) (monthAgo : ℚ) (t : NormTx) : Bool :=
  decide (monthAgo ≤ t.posted) && decide (t.amountNum < 0) && !isTransfer all t

/-- One spending iteration: a qualifying transaction adds `|amount|` to
the total and to its account-name entry; all others leave the state. -/
def spendStep (all : List NormTx) (monthAgo : ℚ) (s : SpendAcc) (t : NormTx) :
    SpendAcc :=
  if spendCond all monthAgo t then
    { total := s.total + |t.amountNum|
      byAccount := bumpAccount t.accountName |t.amountNum| s.byAccount }
  else s

/-- The 30-day spending aggregation: fold the spending iteration over the
normalized transactions with `monthAgo = now - 30*24*60*60`. The source
interleaves this fold with the subscription grouping in one `forEach`;
the two touch disjoint state, so they are embedded as separate folds. -/
def spendAgg (accounts : List Account) (now : ℚ) : SpendAcc :=
  (allTransactions accounts).foldl
    (spendStep (allTransactions accounts) (now - 2592000)) ⟨0, []⟩

/-- The stopword list of the description normalizer. -/
def stopwords : List String := ["the", "inc", "com", "payment"]

/-- Whitespace as matched by the `\s` class of the source's regexes. -/
def isSpaceChar (c : Char) : Bool := c.isWhitespace

/-- One character of `.replace(/[^a-z\s]/g, ' ')` (applied after
`toLowerCase`): keep lowercase letters and whitespace, every other
character becomes a space. -/
def cleanChar (c : Char) : Char :=
  if ('a' ≤ c && c ≤ 'z') || isSpaceChar c then c else ' '

/-- `.replace(/\s+/g, ' ')`: each maximal whitespace run becomes one
space. The flag records whether the previous kept character was such a
run. -/
def collapseAux : Bool → List Char → List Char
  | _, [] => []
  | prevSpace, c :: cs =>
      if isSpaceChar c then
        if prevSpace then collapseAux true cs
        else ' ' :: collapseAux true cs
      else c :: collapseAux false cs

/-- Collapse whitespace runs to single spaces. -/
def collapseSpaces (l : List Char) : List Char := collapseAux false l

/-- `.trim()`: drop leading and trailing whitespace. -/
def trimChars (l : List Char) : List Char :=
  ((l.dropWhile isSpaceChar).reverse.dropWhile isSpaceChar).reverse

/-- `cleanDesc` from the source: lowercase, letters-and-spaces only,
collapsed whitespace, trimmed. -/
def cleanDesc (s : String) : String :=
  ⟨trimChars (collapseSpaces (s.toLower.toList.map cleanChar))⟩

/-- The word list of the grouping-key normalizer: split the cleaned
description on spaces, keep words longer than two characters that are
not stopwords. -/
def keyWords (s : String) : List String :=
  ((cleanDesc s).splitOn " ").filter fun w =>
    decide (2 < w.length) && !(stopwords.contains w)

/-- The grouping key `norm`: the first two remaining words joined by a
space. -/
def groupKey (s : String) : String :=
  String.intercalate " " ((keyWords s).take 2)

/-- `subGroups[norm].transactions.push(t)`: append `t` to the group keyed
`k`, creating the group at the end when the key is new (JS string-keyed
records iterate in insertion order for these all-letter keys). -/
def insertTx (k : String) (t : NormTx) :
    List (String × List NormTx) → List (String × List NormTx)
  | [] => [(k, [t])]
  | (k2, g) :: rest =>
      if k2 = k then (k2, g ++ [t]) :: rest
      else (k2, g) :: insertTx k t rest

/-- One grouping iteration of the `forEach`: negative-amount non-transfer
transactions whose key has at least three characters join their group. -/
def subStep (all : List NormTx) (gs : List (String × List NormTx)) (t : NormTx) :
    List (String × List NormTx) :=
  if decide (t.amountNum < 0) && !isTransfer all t then
    if 3 ≤ (groupKey t.description).length then
      insertTx (groupKey t.description) t gs
    else gs
  else gs

/-- The grouping of all normalized transactions into subscription
candidate groups. -/
def subGroups (all : List NormTx) : List (String × List NormTx) :=
  all.foldl (subStep all) []

/-- A reported subscription entry `{desc, amount, count, norm}`. -/
structure Sub where
  desc : String
  amount : ℚ
  count : ℕ
  norm : String
deriving DecidableEq, Inhabited

/-- Descending-by-timestamp preorder of `sort((a, b) => b.posted - a.posted)`. -/
def postedGE (a b : NormTx) : Prop := b.posted ≤ a.posted

instance : DecidableRel postedGE :=
  fun a b => inferInstanceAs (Decidable (b.posted ≤ a.posted))

instance : IsTotal NormTx postedGE := ⟨fun a b => le_total b.posted a.posted⟩

instance : IsTrans NormTx postedGE := ⟨fun _ _ _ h1 h2 => le_trans h2 h1⟩

/-- Descending-by-count preorder of `sort((a, b) => b.count - a.count)`. -/
def countGE (a b : Sub) : Prop := b.count ≤ a.count

instance : DecidableRel countGE :=
  fun a b => inferInstanceAs (Decidable (b.count ≤ a.count))

instance : IsTotal Sub countGE := ⟨fun a b => le_total b.count a.count⟩

instance : IsTrans Sub countGE := ⟨fun _ _ _ h1 h2 => le_trans h2 h1⟩

/-- Descending-by-amount preorder of `sort((a, b) => b.amount - a.amount)`. -/
def amountGE (a b : Sub) : Prop := b.amount ≤ a.amount

instance : DecidableRel amountGE :=
  fun a b => inferInstanceAs (Decidable (b.amount ≤ a.amount))

instance : IsTotal Sub amountGE := ⟨fun a b => le_total b.amount a.amount⟩

instance : IsTrans Sub amountGE := ⟨fun _ _ _ h1 h2 => le_trans h2 h1⟩

/-- The stable descending-by-timestamp sort applied to each group
(`Array.prototype.sort` is stable, so the stable insertion sort over the
comparator's preorder is extensionally the same ordering). -/
def sortByPostedDesc (g : List NormTx) : List NormTx :=
  List.insertionSort postedGE g

/-- `avg`: the mean of the members' absolute amounts. -/
def avgAbs (txs : List NormTx) : ℚ :=
  (txs.map fun t => |t.amountNum|).sum / ((txs.map fun t => |t.amountNum|).length : ℚ)

/-- `consistentAmount`: every absolute amount is within 30% of the mean
or within an absolute difference of 10. -/
def consistentAmount (amounts : List ℚ) (avg : ℚ) : Bool :=
  amounts.all fun a => decide (|a - avg| / avg < 3 / 10) || decide (|a - avg| < 10)

/-- `hasTimeSpread`: the newest and oldest members of the
descending-sorted group are more than five days (432000 s) apart. -/
def hasTimeSpread (txs : List NormTx) : Bool :=
  decide (432000 < |txs.headI.posted - (txs.getLastD default).posted|)

/-- The body of the `Object.entries(subGroups).forEach`: sort the group
by descending timestamp, and when it has at least two members and passes
`consistentAmount && hasTimeSpread && avg > 1`, report it with the most
recent member's raw description, the mean amount and the member count. -/
def evalGroup (k : String) (g : List NormTx) : Option Sub :=
  if 2 ≤ (sortByPostedDesc g).length then
    if consistentAmount ((sortByPostedDesc g).map fun t => |t.amountNum|)
          (avgAbs (sortByPostedDesc g)) &&
        hasTimeSpread (sortByPostedDesc g) &&
        decide (1 < avgAbs (sortByPostedDesc g)) then
      some { desc := (sortByPostedDesc g).headI.description
             amount := avgAbs (sortByPostedDesc g)
             count := (sortByPostedDesc g).length
             norm := k }
    else none
  else none

/-- `rawSubscriptions`: the qualifying groups in insertion order. -/
def rawSubscriptions (accounts : List Account) : List Sub :=
  (subGroups (allTransactions accounts)).filterMap fun kg => evalGroup kg.1 kg.2

/-- The defensive dedup by `norm`: keep the first occurrence of each key,
threading the `seenNorms` set. -/
def dedupByNorm : List String → List Sub → List Sub
  | _, [] => []
  | seen, s :: rest =>
      if s.norm ∈ seen then dedupByNorm seen rest
      else s :: dedupByNorm (s.norm :: seen) rest

/-- The final `subscriptions` output: sort by descending count, dedup by
key, sort by descending amount, keep the top 20. -/
def subscriptionsOut (accounts : List Account) : List Sub :=
  (List.insertionSort amountGE
    (dedupByNorm [] (List.insertionSort countGE (rawSubscriptions accounts)))).take 20

/-! ### Concrete data used by the witness theorems -/

/-- A small concrete dataset: a checking account with a recurring charge
and a payroll deposit, and a credit card whose payment mirrors the
deposit within the transfer window. -/
def demoAccounts : List Account :=
  [ { id := "1", name := "Main Checking", balance := 5240
      transactions :=
        [ { id := "a", posted := 1000000, amount := -50, description := "Netflix Subscription" }
        , { id := "b", posted := 2000000, amount := -50, description := "Netflix Subscription" }
        , { id := "c", posted := 1500000, amount := 1000, description := "Payroll" } ] }
  , { id := "2", name := "Platinum Card", balance := 1250
      transactions :=
        [ { id := "d", posted := 1550000, amount := -1000, description := "Card Payment" } ] } ]

/-- One side of a concrete transfer pair. -/
def wTxA : NormTx :=
  { id := "wa", posted := 100000, amountNum := 1000, description := "Payroll Deposit"
    accountId := "1", accountName := "Main Checking" }

/-- The matching opposite side, one day later in another account. -/
def wTxB : NormTx :=
  { id := "wb", posted := 186400, amountNum := -1000, description := "Transfer Out"
    accountId := "2", accountName := "High Yield Savings" }

/-! ### Claim theorems -/

/-- Per-account contribution to `netWorth`. -/
def nwOf (a : Account) : ℚ :=
  if getAccountType a.name = "Credit Card" then -|a.balance| else a.balance

/-- Per-account contribution to `assets`. -/
def assetsOf (a : Account) : ℚ :=
  if getAccountType a.name = "Credit Card" then 0
  else if 0 < a.balance then a.balance else 0

/-- Per-account contribution to `liabilities`. -/
def liabOf (a : Account) : ℚ :=
  if getAccountType a.name = "Credit Card" then |a.balance|
  else if 0 < a.balance then 0 else |a.balance|

/-- The condition under which a transaction enters the subscription
grouping: negative amount, not a transfer, grouping key of length at
least three. -/
def qualifyCond (all : List NormTx) (t : NormTx) : Bool :=
  (decide (t.amountNum < 0) && !isTransfer all t) &&
    decide (3 ≤ (groupKey t.description).length)

/-- Modelled on the spec wording of the description normalizer (§4.6
step 2): lowercase, strip all non-letter/non-space characters (each
stripped character leaves a word boundary behind, i.e. whitespace, as
the source regex substitutes a space), collapse whitespace, trim, split
into words, drop words of length at most 2 and the stopwords, and join
the first two remaining words with a space. -/
def specGroupKey (d : String) : String :=
  String.intercalate " "
    ((((cleanDesc d).splitOn " ").filter fun w =>
        !(decide (w.length ≤ 2)) && !(stopwords.contains w)).take 2)

/-- Invariant of every group in `subGroups`: nonempty, and every member
is a negative-amount non-transfer transaction of the scanned list whose
grouping key is the group's key, of length at least three. -/
def goodGroup (all : List NormTx) (p : String × List NormTx) : Prop :=
  p.2 ≠ [] ∧ ∀ u ∈ p.2, p.1 = groupKey u.description ∧ u.amountNum < 0 ∧
    isTransfer all u = false ∧ 3 ≤ p.1.length ∧ u ∈ all

/-- A one-account dataset with a recurring Netflix charge, used by the
witness theorems of the subscription claims. -/
def demoNetflix : List Account :=
  [ { id := "1", name := "Main Checking", balance := 5240
      transactions :=
        [ { id := "a", posted := 1000000, amount := -50, description := "Netflix Subscription" }
        , { id := "b", posted := 2000000, amount := -50, description := "Netflix Subscription" } ] } ]

/-- The normalized form of the first demo charge. -/
def nTxA : NormTx :=
  { id := "a", posted := 1000000, amountNum := -50, description := "Netflix Subscription"
    accountId := "1", accountName := "Main Checking" }

/-- The normalized form of the second demo charge. -/
def nTxB : NormTx :=
  { id := "b", posted := 2000000, amountNum := -50, description := "Netflix Subscription"
    accountId := "1", accountName := "Main Checking" }

/-- The subscription entry produced by the demo dataset. -/
def demoSubEntry : Sub :=
  { desc := "Netflix Subscription", amount := 50, count := 2
    norm := "netflix subscription" }

/-- C8: the timestamp normalizer divides `posted` by 1000 exactly when it
exceeds 2,000,000,000 (milliseconds heuristic) and leaves it unchanged
otherwise; in particular `1700000000000` (ms) and `1700000000` (s)
normalize to the same value. -/
theorem c8_normalizePosted_heuristic :
    (∀ p : ℚ, 2000000000 < p → normalizePosted p = p / 1000) ∧
    (∀ p : ℚ, p ≤ 2000000000 → normalizePosted p = p) ∧
    normalizePosted 1700000000000 = normalizePosted 1700000000 := by
  refine ⟨fun p hp => ?_, fun p hp => ?_, ?_⟩
  · simp [normalizePosted, hp]
  · simp [normalizePosted, not_lt.mpr hp]
  · norm_num [normalizePosted]

theorem c8_normalizePosted_heuristic_witness :
    normalizePosted 2500000000 = 2500000 ∧ normalizePosted 1700000000 = 1700000000 := by
  constructor
  · rw [c8_normalizePosted_heuristic.1 2500000000 (by norm_num)]; norm_num
  · exact c8_normalizePosted_heuristic.2.1 1700000000 (by norm_num)

/-- C2: a transaction is flagged as a transfer iff some transaction
anywhere across all accounts has a different id, an amount cancelling
this one's within `1/1000`, and a normalized timestamp within 259200
seconds; no account-difference requirement and only existence matters. -/
theorem c2_transfer_iff (accounts : List Account) (t : NormTx) :
    isTransfer (allTransactions accounts) t = true ↔
      ∃ u ∈ allTransactions accounts, u.id ≠ t.id ∧
        |u.amountNum + t.amountNum| < 1 / 1000 ∧
        |u.posted - t.posted| < 259200 := by
  simp [isTransfer, transferMatch, List.any_eq_true, and_assoc]

/-- C7: the transfer-matching predicate is symmetric — if B matches
against A (flagging A), then A matches against B, and B is flagged as
long as A is in the scanned list. -/
theorem c7_transfer_symmetry (all : List NormTx) (a b : NormTx)
    (ha : a ∈ all) (hab : transferMatch a b = true) :
    transferMatch b a = true ∧ isTransfer all b = true := by
  have hba : transferMatch b a = true := by
    rw [transferMatch, Bool.and_eq_true, Bool.and_eq_true] at hab ⊢
    obtain ⟨⟨hid, hamt⟩, hpost⟩ := hab
    rw [bne_iff_ne] at hid ⊢
    rw [decide_eq_true_eq] at hamt hpost ⊢
    rw [decide_eq_true_eq]
    refine ⟨⟨fun h => hid h.symm, ?_⟩, ?_⟩
    · rwa [add_comm]
    · rwa [abs_sub_comm]
  refine ⟨hba, ?_⟩
  simp only [isTransfer, List.any_eq_true]
  exact ⟨a, ha, hba⟩

theorem c7_transfer_symmetry_witness :
    transferMatch wTxB wTxA = true ∧ isTransfer [wTxA, wTxB] wTxB = true :=
  c7_transfer_symmetry [wTxA, wTxB] wTxA wTxB (by simp)
    (by norm_num [transferMatch, wTxA, wTxB]; decide)

lemma foldl_netWorthStep (l : List Account) : ∀ s : NetWorthAcc,
    l.foldl netWorthStep s =
      { netWorth := s.netWorth + (l.map nwOf).sum
        assets := s.assets + (l.map assetsOf).sum
        liabilities := s.liabilities + (l.map liabOf).sum } := by
  induction l with
  | nil => intro s; simp
  | cons a l ih =>
      intro s
      rw [List.foldl_cons, ih]
      simp only [List.map_cons, List.sum_cons, netWorthStep, nwOf, assetsOf, liabOf]
      split_ifs <;> simp <;> ring_nf <;> simp [add_comm, add_assoc, add_left_comm]

lemma sum_map_nwOf (l : List Account) :
    (l.map nwOf).sum =
      ((l.filter fun a => !(getAccountType a.name == "Credit Card")).map
          fun a => a.balance).sum -
      ((l.filter fun a => getAccountType a.name == "Credit Card").map
          fun a => |a.balance|).sum := by
  induction l with
  | nil => simp
  | cons a l ih =>
      by_cases hcc : getAccountType a.name = "Credit Card" <;>
        simp [List.filter_cons, nwOf, hcc, ih] <;> ring

lemma sum_map_assetsOf (l : List Account) :
    (l.map assetsOf).sum =
      ((l.filter fun a =>
          !(getAccountType a.name == "Credit Card") && decide (0 < a.balance)).map
          fun a => a.balance).sum := by
  induction l with
  | nil => simp
  | cons a l ih =>
      by_cases hcc : getAccountType a.name = "Credit Card"
      · simp [List.filter_cons, assetsOf, hcc, ih]
      · by_cases hpos : 0 < a.balance <;>
          simp [List.filter_cons, assetsOf, hcc, hpos, ih]

lemma sum_map_liabOf (l : List Account) :
    (l.map liabOf).sum =
      ((l.filter fun a => getAccountType a.name == "Credit Card").map
          fun a => |a.balance|).sum +
      ((l.filter fun a =>
          !(getAccountType a.name == "Credit Card") && decide (a.balance < 0)).map
          fun a => |a.balance|).sum := by
  induction l with
  | nil => simp
  | cons a l ih =>
      by_cases hcc : getAccountType a.name = "Credit Card"
      · simp [List.filter_cons, liabOf, hcc, ih]; ring
      · rcases lt_trichotomy a.balance 0 with hneg | hz | hpos
        · have : ¬(0 < a.balance) := not_lt.mpr hneg.le
          simp [List.filter_cons, liabOf, hcc, hneg, this, ih]; ring
        · have h1 : ¬(0 < a.balance) := by rw [hz]; exact lt_irrefl 0
          have h2 : ¬(a.balance < 0) := by rw [hz]; exact lt_irrefl 0
          simp [List.filter_cons, liabOf, hcc, h1, h2, ih, hz]
        · have h2 : ¬(a.balance < 0) := not_lt.mpr hpos.le
          simp [List.filter_cons, liabOf, hcc, hpos, h2, ih]

/-- C1: the net-worth aggregation follows the per-account rule, so for
every input `netWorth` is the sum of non-credit-card signed balances
minus the sum of absolute credit-card balances, `assets` is the sum of
positive non-credit-card balances, and `liabilities` is the sum of
absolute credit-card balances plus the absolute negative non-credit-card
balances. -/
theorem c1_netWorth_decomposition (accounts : List Account) :
    (netWorthAgg accounts).netWorth =
      ((accounts.filter fun a => !(getAccountType a.name == "Credit Card")).map
          fun a => a.balance).sum -
      ((accounts.filter fun a => getAccountType a.name == "Credit Card").map
          fun a => |a.balance|).sum ∧
    (netWorthAgg accounts).assets =
      ((accounts.filter fun a =>
          !(getAccountType a.name == "Credit Card") && decide (0 < a.balance)).map
          fun a => a.balance).sum ∧
    (netWorthAgg accounts).liabilities =
      ((accounts.filter fun a => getAccountType a.name == "Credit Card").map
          fun a => |a.balance|).sum +
      ((accounts.filter fun a =>
          !(getAccountType a.name == "Credit Card") && decide (a.balance < 0)).map
          fun a => |a.balance|).sum := by
  rw [netWorthAgg, foldl_netWorthStep]
  refine ⟨?_, ?_, ?_⟩
  · simpa using sum_map_nwOf accounts
  · simpa using sum_map_assetsOf accounts
  · simpa using sum_map_liabOf accounts

lemma lookupQ_bumpAccount (m n : String) (v : ℚ) (l : List (String × ℚ)) :
    lookupQ m (bumpAccount n v l) = lookupQ m l + (if n = m then v else 0) := by
  induction l with
  | nil =>
      by_cases h : n = m <;> simp [bumpAccount, lookupQ, h]
  | cons p rest ih =>
      obtain ⟨k, x⟩ := p
      by_cases hk : k = n
      · subst hk
        by_cases hm : k = m
        · subst hm; simp [bumpAccount, lookupQ]
        · simp [bumpAccount, lookupQ, hm]
      · by_cases hm : k = m
        · subst hm
          have : ¬(n = k) := fun h => hk h.symm
          simp [bumpAccount, lookupQ, hk, this]
        · simp [bumpAccount, lookupQ, hk, hm, ih]

lemma sndSum_bumpAccount (n : String) (v : ℚ) (l : List (String × ℚ)) :
    ((bumpAccount n v l).map Prod.snd).sum = (l.map Prod.snd).sum + v := by
  induction l with
  | nil => simp [bumpAccount]
  | cons p rest ih =>
      obtain ⟨k, x⟩ := p
      by_cases hk : k = n <;> simp [bumpAccount, hk, ih] <;> ring

lemma foldl_spendStep_total (all : List NormTx) (monthAgo : ℚ) (l : List NormTx) :
    ∀ s : SpendAcc,
      (l.foldl (spendStep all monthAgo) s).total =
        s.total + ((l.filter (spendCond all monthAgo)).map fun t => |t.amountNum|).sum := by
  induction l with
  | nil => intro s; simp
  | cons t l ih =>
      intro s
      rw [List.foldl_cons, ih, List.filter_cons]
      by_cases h : spendCond all monthAgo t = true <;>
        simp [spendStep, h] <;> ring

lemma foldl_spendStep_lookup (all : List NormTx) (monthAgo : ℚ) (l : List NormTx) :
    ∀ (s : SpendAcc) (name : String),
      lookupQ name (l.foldl (spendStep all monthAgo) s).byAccount =
        lookupQ name s.byAccount +
          (((l.filter (spendCond all monthAgo)).filter
              fun t => t.accountName == name).map fun t => |t.amountNum|).sum := by
  induction l with
  | nil => intro s name; simp
  | cons t l ih =>
      intro s name
      rw [List.foldl_cons, ih, List.filter_cons]
      by_cases h : spendCond all monthAgo t = true
      · rw [if_pos h]
        rw [List.filter_cons]
        by_cases hn : t.accountName = name
        · simp [spendStep, h, lookupQ_bumpAccount, hn]; ring
        · have : ¬(t.accountName == name) = true := by
            simpa using hn
          simp [spendStep, h, lookupQ_bumpAccount, hn, this]
      · rw [if_neg h]
        simp [spendStep, h]

lemma foldl_spendStep_sndSum (all : List NormTx) (monthAgo : ℚ) (l : List NormTx) :
    ∀ s : SpendAcc,
      (((l.foldl (spendStep all monthAgo) s).byAccount).map Prod.snd).sum =
        ((s.byAccount.map Prod.snd).sum) +
          ((l.filter (spendCond all monthAgo)).map fun t => |t.amountNum|).sum := by
  induction l with
  | nil => intro s; simp
  | cons t l ih =>
      intro s
      rw [List.foldl_cons, ih, List.filter_cons]
      by_cases h : spendCond all monthAgo t = true <;>
        simp [spendStep, h, sndSum_bumpAccount] <;> ring

/-- C3: a transaction contributes to the 30-day spending total and to the
per-account-name record exactly when its normalized timestamp is at least
`now - 30` days, its amount is negative and it is not flagged as a
transfer; every qualifying transaction adds `|amount|` to the total and
to the entry keyed by its account display name, and no flagged transfer
ever contributes. -/
theorem c3_spend_aggregation (accounts : List Account) (now : ℚ) :
    (spendAgg accounts now).total =
      (((allTransactions accounts).filter
          (spendCond (allTransactions accounts) (now - 2592000))).map
        fun t => |t.amountNum|).sum ∧
    (∀ name : String,
      lookupQ name (spendAgg accounts now).byAccount =
        ((((allTransactions accounts).filter
            (spendCond (allTransactions accounts) (now - 2592000))).filter
            fun t => t.accountName == name).map fun t => |t.amountNum|).sum) ∧
    (∀ t : NormTx,
      spendCond (allTransactions accounts) (now - 2592000) t = true ↔
        (now - 2592000 ≤ t.posted ∧ t.amountNum < 0 ∧
          isTransfer (allTransactions accounts) t = false)) ∧
    ((allTransactions accounts).filter
        (spendCond (allTransactions accounts) (now - 2592000))).all
      (fun t => !isTransfer (allTransactions accounts) t) = true := by
  refine ⟨?_, fun name => ?_, fun t => ?_, ?_⟩
  · rw [spendAgg, foldl_spendStep_total]; simp
  · rw [spendAgg, foldl_spendStep_lookup]; simp [lookupQ]
  · simp [spendCond, Bool.and_eq_true, Bool.not_eq_true', and_assoc]
  · rw [List.all_eq_true]
    intro t ht
    rw [List.mem_filter] at ht
    have h := ht.2
    rw [spendCond, Bool.and_eq_true, Bool.and_eq_true] at h
    exact h.2

/-- C10: the 30-day spending total equals the sum of the values of the
per-account-name record — each qualifying transaction is added to the
total and to exactly one entry, and nothing else is ever added. -/
theorem c10_spending_total_eq_byAccount_sum (accounts : List Account) (now : ℚ) :
    (spendAgg accounts now).total =
      ((spendAgg accounts now).byAccount.map Prod.snd).sum := by
  rw [spendAgg, foldl_spendStep_total, foldl_spendStep_sndSum]
  simp

lemma insertTx_good {all : List NormTx} {k : String} {t : NormTx}
    (hk : k = groupKey t.description) (hneg : t.amountNum < 0)
    (htr : isTransfer all t = false) (hlen : 3 ≤ k.length) (hmem : t ∈ all) :
    ∀ gs : List (String × List NormTx), (∀ p ∈ gs, goodGroup all p) →
      ∀ p ∈ insertTx k t gs, goodGroup all p := by
  intro gs
  induction gs with
  | nil =>
      intro _ p hp
      simp only [insertTx, List.mem_singleton] at hp
      subst hp
      refine ⟨by simp, ?_⟩
      intro u hu
      simp only [List.mem_singleton] at hu
      subst hu
      exact ⟨hk, hneg, htr, hlen, hmem⟩
  | cons q rest ih =>
      intro hgs p hp
      obtain ⟨k2, g⟩ := q
      by_cases h : k2 = k
      · subst h
        simp only [insertTx, if_pos rfl] at hp
        rcases List.mem_cons.mp hp with hp | hp
        · subst hp
          have hq := hgs (k2, g) (List.mem_cons_self _ _)
          refine ⟨by simp, ?_⟩
          intro u hu
          rcases List.mem_append.mp hu with hu | hu
          · exact hq.2 u hu
          · simp only [List.mem_singleton] at hu
            subst hu
            exact ⟨hk, hneg, htr, hlen, hmem⟩
        · exact hgs p (List.mem_cons_of_mem _ hp)
      · simp only [insertTx, if_neg h] at hp
        rcases List.mem_cons.mp hp with hp | hp
        · subst hp
          exact hgs (k2, g) (List.mem_cons_self _ _)
        · exact ih (fun r hr => hgs r (List.mem_cons_of_mem _ hr)) p hp

lemma subStep_good {all : List NormTx} {gs : List (String × List NormTx)}
    {t : NormTx} (hgs : ∀ p ∈ gs, goodGroup all p) (hmem : t ∈ all) :
    ∀ p ∈ subStep all gs t, goodGroup all p := by
  unfold subStep
  split_ifs with h1 h2
  · simp only [Bool.and_eq_true, decide_eq_true_eq, Bool.not_eq_true'] at h1
    exact insertTx_good rfl h1.1 h1.2 h2 hmem gs hgs
  · exact hgs
  · exact hgs

lemma foldl_subStep_good (all : List NormTx) :
    ∀ l : List NormTx, (∀ u ∈ l, u ∈ all) →
      ∀ gs : List (String × List NormTx), (∀ p ∈ gs, goodGroup all p) →
        ∀ p ∈ l.foldl (subStep all) gs, goodGroup all p := by
  intro l
  induction l with
  | nil => intro _ gs hgs p hp; exact hgs p hp
  | cons t l ih =>
      intro hl gs hgs
      rw [List.foldl_cons]
      exact ih (fun u hu => hl u (List.mem_cons_of_mem _ hu)) _
        (subStep_good hgs (hl t (List.mem_cons_self _ _)))

lemma subGroups_good (all : List NormTx) :
    ∀ p ∈ subGroups all, goodGroup all p :=
  foldl_subStep_good all all (fun _ h => h) [] (by simp)

lemma insertTx_keys (k : String) (t : NormTx)
    (gs : List (String × List NormTx)) :
    (insertTx k t gs).map Prod.fst =
      if k ∈ gs.map Prod.fst then gs.map Prod.fst
      else gs.map Prod.fst ++ [k] := by
  induction gs with
  | nil => simp [insertTx]
  | cons q rest ih =>
      obtain ⟨k2, g⟩ := q
      by_cases h : k2 = k
      · subst h
        simp [insertTx]
      · have hne : ¬(k = k2) := fun hh => h hh.symm
        simp only [insertTx, if_neg h, List.map_cons, ih]
        by_cases hm : k ∈ rest.map Prod.fst
        · rw [if_pos hm, if_pos (List.mem_cons_of_mem _ hm)]
        · rw [if_neg hm, if_neg ?_, List.cons_append]
          intro hc
          rcases List.mem_cons.mp hc with hc | hc
          · exact hne hc
          · exact hm hc

lemma insertTx_keys_nodup {k : String} {t : NormTx}
    {gs : List (String × List NormTx)} (h : (gs.map Prod.fst).Nodup) :
    ((insertTx k t gs).map Prod.fst).Nodup := by
  rw [insertTx_keys]
  split_ifs with hm
  · exact h
  · rw [List.nodup_append]
    refine ⟨h, List.nodup_singleton k, ?_⟩
    intro a ha hb
    simp only [List.mem_singleton] at hb
    subst hb
    exact hm ha

lemma subGroups_keys_nodup (all : List NormTx) :
    ((subGroups all).map Prod.fst).Nodup := by
  rw [subGroups]
  have h : ∀ (l : List NormTx) (gs : List (String × List NormTx)),
      (gs.map Prod.fst).Nodup →
        ((l.foldl (subStep all) gs).map Prod.fst).Nodup := by
    intro l
    induction l with
    | nil => intro gs hgs; exact hgs
    | cons t l ih =>
        intro gs hgs
        rw [List.foldl_cons]
        refine ih _ ?_
        unfold subStep
        split_ifs
        · exact insertTx_keys_nodup hgs
        · exact hgs
        · exact hgs
  exact h all [] (by simp)

lemma assoc_snd_unique {gs : List (String × List NormTx)}
    (h : (gs.map Prod.fst).Nodup) {k : String} {g g2 : List NormTx}
    (h1 : (k, g) ∈ gs) (h2 : (k, g2) ∈ gs) : g = g2 := by
  induction gs with
  | nil => simp at h1
  | cons q rest ih =>
      obtain ⟨k0, g0⟩ := q
      rw [List.map_cons, List.nodup_cons] at h
      rcases List.mem_cons.mp h1 with e1 | m1 <;>
        rcases List.mem_cons.mp h2 with e2 | m2
      · rw [Prod.mk.injEq] at e1 e2
        rw [e1.2, e2.2]
      · rw [Prod.mk.injEq] at e1
        have hm : k ∈ rest.map Prod.fst := List.mem_map_of_mem Prod.fst m2
        rw [e1.1] at hm
        exact absurd hm h.1
      · rw [Prod.mk.injEq] at e2
        have hm : k ∈ rest.map Prod.fst := List.mem_map_of_mem Prod.fst m1
        rw [e2.1] at hm
        exact absurd hm h.1
      · exact ih h.2 m1 m2

lemma insertTx_flatten (k : String) (t : NormTx)
    (gs : List (String × List NormTx)) :
    (((insertTx k t gs).map Prod.snd).flatten).Perm
      ((gs.map Prod.snd).flatten ++ [t]) := by
  induction gs with
  | nil => simp [insertTx]
  | cons q rest ih =>
      obtain ⟨k2, g⟩ := q
      by_cases h : k2 = k
      · subst h
        simp only [insertTx, eq_self_iff_true, if_true, List.map_cons,
          List.flatten_cons, List.append_assoc]
        exact List.Perm.append_left g List.perm_append_comm
      · simp only [insertTx, if_neg h, List.map_cons, List.flatten_cons,
          List.append_assoc]
        exact List.Perm.append_left g ih

lemma subStep_flatten (all : List NormTx) (gs : List (String × List NormTx))
    (t : NormTx) :
    (((subStep all gs t).map Prod.snd).flatten).Perm
      ((gs.map Prod.snd).flatten ++
        (if qualifyCond all t = true then [t] else [])) := by
  by_cases h1 : (decide (t.amountNum < 0) && !isTransfer all t) = true
  · by_cases h2 : 3 ≤ (groupKey t.description).length
    · have hq : qualifyCond all t = true := by
        rw [qualifyCond, h1, decide_eq_true h2]
        rfl
      have hstep : subStep all gs t = insertTx (groupKey t.description) t gs := by
        rw [subStep, if_pos h1, if_pos h2]
      rw [hstep, if_pos hq]
      exact insertTx_flatten _ t gs
    · have hq : ¬(qualifyCond all t = true) := by
        rw [qualifyCond, h1, decide_eq_false h2]
        simp
      have hstep : subStep all gs t = gs := by
        rw [subStep, if_pos h1, if_neg h2]
      rw [hstep, if_neg hq]
      simp
  · have h1f : (decide (t.amountNum < 0) && !isTransfer all t) = false := by
      revert h1
      cases (decide (t.amountNum < 0) && !isTransfer all t) <;> simp
    have hq : ¬(qualifyCond all t = true) := by
      rw [qualifyCond, h1f]
      simp
    have hstep : subStep all gs t = gs := by
      rw [subStep, if_neg h1]
    rw [hstep, if_neg hq]
    simp

lemma foldl_subStep_flatten (all : List NormTx) :
    ∀ (l : List NormTx) (gs : List (String × List NormTx)),
      (((l.foldl (subStep all) gs).map Prod.snd).flatten).Perm
        ((gs.map Prod.snd).flatten ++ l.filter (qualifyCond all)) := by
  intro l
  induction l with
  | nil => intro gs; simp
  | cons t l ih =>
      intro gs
      rw [List.foldl_cons, List.filter_cons]
      refine (ih (subStep all gs t)).trans ?_
      refine ((subStep_flatten all gs t).append_right _).trans ?_
      by_cases h : qualifyCond all t = true
      · rw [if_pos h, if_pos h, List.append_assoc]
        exact List.Perm.refl _
      · rw [if_neg h, if_neg h]
        simp

lemma subGroups_flatten_perm (all : List NormTx) :
    (((subGroups all).map Prod.snd).flatten).Perm
      (all.filter (qualifyCond all)) := by
  have h := foldl_subStep_flatten all all []
  simpa [subGroups] using h

lemma demo_allTransactions : allTransactions demoNetflix = [nTxA, nTxB] := by
  norm_num [allTransactions, demoNetflix, normalizePosted, nTxA, nTxB]

lemma demo_group_mem :
    ("netflix subscription", [nTxA, nTxB]) ∈ subGroups [nTxA, nTxB] := by
  have hk : groupKey "Netflix Subscription" = "netflix subscription" := by
    with_unfolding_all rfl
  have hl : "netflix subscription".length = 20 := by with_unfolding_all rfl
  norm_num [subGroups, subStep, isTransfer, transferMatch, nTxA, nTxB, insertTx, hk, hl]

lemma avgAbs_pos {g : List NormTx} (hne : g ≠ [])
    (hneg : ∀ u ∈ g, u.amountNum < 0) : 0 < avgAbs g := by
  rw [avgAbs]
  apply div_pos
  · apply List.sum_pos
    · intro x hx
      rw [List.mem_map] at hx
      obtain ⟨u, hu, hxu⟩ := hx
      rw [← hxu]
      exact abs_pos.mpr (ne_of_lt (hneg u hu))
    · simpa using hne
  · have : 0 < (g.map fun t => |t.amountNum|).length := by
      rw [List.length_pos]
      simpa using hne
    exact_mod_cast this

lemma evalGroup_eq_some {k : String} {g : List NormTx} {s : Sub} :
    evalGroup k g = some s ↔
      2 ≤ (sortByPostedDesc g).length ∧
      consistentAmount ((sortByPostedDesc g).map fun t => |t.amountNum|)
          (avgAbs (sortByPostedDesc g)) = true ∧
      hasTimeSpread (sortByPostedDesc g) = true ∧
      1 < avgAbs (sortByPostedDesc g) ∧
      s = { desc := (sortByPostedDesc g).headI.description
            amount := avgAbs (sortByPostedDesc g)
            count := (sortByPostedDesc g).length
            norm := k } := by
  rw [evalGroup]
  split_ifs with h1 h2
  · rw [Bool.and_eq_true, Bool.and_eq_true] at h2
    obtain ⟨⟨hc, hh⟩, hd⟩ := h2
    simp only [Option.some.injEq]
    constructor
    · intro he
      exact ⟨h1, hc, hh, of_decide_eq_true hd, he.symm⟩
    · intro hcon
      exact hcon.2.2.2.2.symm
  · constructor
    · intro he
      simp at he
    · rintro ⟨_, hc, hh, hd, _⟩
      have : (consistentAmount ((sortByPostedDesc g).map fun t => |t.amountNum|)
            (avgAbs (sortByPostedDesc g)) &&
          hasTimeSpread (sortByPostedDesc g) &&
          decide (1 < avgAbs (sortByPostedDesc g))) = true := by
        rw [hc, hh, decide_eq_true hd]
        rfl
      exact absurd this h2
  · constructor
    · intro he
      simp at he
    · rintro ⟨hl, _⟩
      exact absurd hl h1

lemma rawSubscriptions_mem {accounts : List Account} {s : Sub}
    (hs : s ∈ rawSubscriptions accounts) : 2 ≤ s.count ∧ 1 < s.amount := by
  rw [rawSubscriptions, List.mem_filterMap] at hs
  obtain ⟨kg, hkg, he⟩ := hs
  rw [evalGroup_eq_some] at he
  obtain ⟨h2, _, _, havg, hse⟩ := he
  subst hse
  exact ⟨h2, havg⟩

/-- C5: the subscription grouping key of a transaction is computed by the
spec's normalization pipeline (lowercase, strip non-letter/non-space
characters, collapse whitespace, trim, split, drop words of length at
most two and stopwords, join the first two); every grouped transaction
carries its own key of length at least three, and the grouped
transactions are exactly the negative-amount non-transfer transactions
whose key is long enough — the rest are discarded. -/
theorem c5_grouping_key :
    (∀ d : String, groupKey d = specGroupKey d) ∧
    (∀ all : List NormTx, ∀ p ∈ subGroups all, ∀ u ∈ p.2,
        p.1 = groupKey u.description ∧ 3 ≤ (groupKey u.description).length ∧
          u.amountNum < 0 ∧ isTransfer all u = false) ∧
    (∀ all : List NormTx,
        (((subGroups all).map Prod.snd).flatten).Perm
          (all.filter (qualifyCond all))) := by
  refine ⟨?_, ?_, subGroups_flatten_perm⟩
  · intro d
    rw [groupKey, specGroupKey, keyWords]
    have : (((cleanDesc d).splitOn " ").filter fun w =>
          decide (2 < w.length) && !(stopwords.contains w)) =
        (((cleanDesc d).splitOn " ").filter fun w =>
          !(decide (w.length ≤ 2)) && !(stopwords.contains w)) := by
      apply List.filter_congr
      intro w _
      have hw : (decide (2 < w.length)) = !(decide (w.length ≤ 2)) := by
        rw [← decide_not, decide_eq_decide]
        exact not_le.symm
      rw [hw]
    rw [this]
  · intro all p hp u hu
    obtain ⟨_, h2⟩ := subGroups_good all p hp
    obtain ⟨hk, hneg, htr, hlen, _⟩ := h2 u hu
    exact ⟨hk, hk ▸ hlen, hneg, htr⟩

theorem c5_grouping_key_witness :
    "netflix subscription" = groupKey nTxA.description ∧
      3 ≤ (groupKey nTxA.description).length ∧
      nTxA.amountNum < 0 ∧ isTransfer [nTxA, nTxB] nTxA = false :=
  c5_grouping_key.2.1 [nTxA, nTxB] ("netflix subscription", [nTxA, nTxB])
    demo_group_mem nTxA (by simp)

/-- C9: every group the subscription detector forms is nonempty and
contains only strictly negative amounts, so the mean absolute amount that
the percentage check divides by is strictly positive; and every reported
subscription passed the `avg > 1` gate, so a zero-average group can
never be reported. -/
theorem c9_avg_positive (all : List NormTx) (p : String × List NormTx)
    (hp : p ∈ subGroups all) :
    p.2 ≠ [] ∧ (∀ u ∈ p.2, u.amountNum < 0) ∧
      0 < avgAbs (sortByPostedDesc p.2) ∧
      ∀ (accounts : List Account) (s : Sub),
        s ∈ rawSubscriptions accounts → 1 < s.amount := by
  obtain ⟨hne, hmem⟩ := subGroups_good all p hp
  have hneg : ∀ u ∈ p.2, u.amountNum < 0 := fun u hu => (hmem u hu).2.1
  refine ⟨hne, hneg, ?_, fun accounts s hs => (rawSubscriptions_mem hs).2⟩
  have hperm : (sortByPostedDesc p.2).Perm p.2 := List.perm_insertionSort _ _
  apply avgAbs_pos
  · intro h
    rw [h] at hperm
    exact hne hperm.symm.eq_nil
  · intro u hu
    exact hneg u (hperm.subset hu)

theorem c9_avg_positive_witness :
    0 < avgAbs (sortByPostedDesc [nTxA, nTxB]) :=
  (c9_avg_positive [nTxA, nTxB] ("netflix subscription", [nTxA, nTxB])
    demo_group_mem).2.2.1

/-- C4: a grouping-key group with at least two members is reported in
`rawSubscriptions` exactly when every member's absolute amount passes the
30-percent-or-absolute-10 consistency check against the group mean, the
newest and oldest members are more than five days apart, and the mean
exceeds one; the reported entry carries the most recent member's raw
description, the mean as its amount, and the member count. -/
theorem c4_group_reported_iff (accounts : List Account) (k : String)
    (g : List NormTx)
    (hmem : (k, g) ∈ subGroups (allTransactions accounts))
    (h2 : 2 ≤ g.length) :
    (consistentAmount ((sortByPostedDesc g).map fun t => |t.amountNum|)
        (avgAbs (sortByPostedDesc g)) = true ∧
      hasTimeSpread (sortByPostedDesc g) = true ∧
      1 < avgAbs (sortByPostedDesc g)) ↔
      ({ desc := (sortByPostedDesc g).headI.description
         amount := avgAbs (sortByPostedDesc g)
         count := g.length
         norm := k } : Sub) ∈ rawSubscriptions accounts := by
  have hlen : (sortByPostedDesc g).length = g.length :=
    (List.perm_insertionSort postedGE g).length_eq
  constructor
  · rintro ⟨hc, hh, hd⟩
    rw [rawSubscriptions, List.mem_filterMap]
    refine ⟨(k, g), hmem, ?_⟩
    rw [evalGroup_eq_some]
    refine ⟨hlen ▸ h2, hc, hh, hd, ?_⟩
    rw [hlen]
  · intro hs
    rw [rawSubscriptions, List.mem_filterMap] at hs
    obtain ⟨⟨k2, g2⟩, hkg, he⟩ := hs
    rw [evalGroup_eq_some] at he
    obtain ⟨hl2, hc2, hh2, hd2, hse⟩ := he
    have hk : k = k2 := congrArg Sub.norm hse
    subst hk
    have hg : g2 = g := assoc_snd_unique (subGroups_keys_nodup _) hkg hmem
    subst hg
    exact ⟨hc2, hh2, hd2⟩

theorem c4_group_reported_iff_witness :
    ({ desc := (sortByPostedDesc [nTxA, nTxB]).headI.description
       amount := avgAbs (sortByPostedDesc [nTxA, nTxB])
       count := ([nTxA, nTxB] : List NormTx).length
       norm := "netflix subscription" } : Sub) ∈ rawSubscriptions demoNetflix := by
  apply (c4_group_reported_iff demoNetflix "netflix subscription" [nTxA, nTxB]
      (demo_allTransactions.symm ▸ demo_group_mem) (by norm_num)).mp
  refine ⟨?_, ?_, ?_⟩ <;>
    norm_num [sortByPostedDesc, List.insertionSort, List.orderedInsert, postedGE,
      nTxA, nTxB, consistentAmount, avgAbs, hasTimeSpread]

lemma dedupByNorm_subset (seen : List String) (l : List Sub) :
    ∀ s ∈ dedupByNorm seen l, s ∈ l := by
  induction l generalizing seen with
  | nil => intro s hs; simp [dedupByNorm] at hs
  | cons a rest ih =>
      intro s hs
      rw [dedupByNorm] at hs
      by_cases h : a.norm ∈ seen
      · rw [if_pos h] at hs
        exact List.mem_cons_of_mem _ (ih seen s hs)
      · rw [if_neg h] at hs
        rcases List.mem_cons.mp hs with hs | hs
        · exact hs ▸ List.mem_cons_self _ _
        · exact List.mem_cons_of_mem _ (ih _ s hs)

/-- C6: the reported subscriptions list has at most 20 entries, is in
descending order of amount (non-strict across ties, which the stable
sort breaks by prior position), and every entry has count at least 2. -/
theorem c6_output_shape (accounts : List Account) :
    (subscriptionsOut accounts).length ≤ 20 ∧
    List.Pairwise amountGE (subscriptionsOut accounts) ∧
    ∀ s ∈ subscriptionsOut accounts, 2 ≤ s.count := by
  refine ⟨?_, ?_, ?_⟩
  · rw [subscriptionsOut]
    exact List.length_take_le _ _
  · rw [subscriptionsOut]
    exact List.Pairwise.sublist (List.take_sublist _ _)
      (List.sorted_insertionSort amountGE _)
  · intro s hs
    rw [subscriptionsOut] at hs
    have hs1 := (List.take_sublist _ _).subset hs
    have hs2 := (List.perm_insertionSort amountGE _).subset hs1
    have hs3 := dedupByNorm_subset _ _ s hs2
    have hs4 := (List.perm_insertionSort countGE _).subset hs3
    exact (rawSubscriptions_mem hs4).1

lemma demo_subscriptionsOut : subscriptionsOut demoNetflix = [demoSubEntry] := by
  have hk : groupKey "Netflix Subscription" = "netflix subscription" := by
    with_unfolding_all rfl
  have hl : "netflix subscription".length = 20 := by with_unfolding_all rfl
  norm_num [subscriptionsOut, rawSubscriptions, demo_allTransactions, subGroups,
    subStep, isTransfer, transferMatch, nTxA, nTxB, insertTx, hk, hl, evalGroup,
    sortByPostedDesc, List.insertionSort, List.orderedInsert, postedGE, avgAbs,
    consistentAmount, hasTimeSpread, dedupByNorm, countGE, amountGE, demoSubEntry,
    List.filterMap_cons, List.filterMap_nil, List.headI, List.getLast?, Option.getD]

theorem c6_output_shape_witness : 2 ≤ demoSubEntry.count :=
  (c6_output_shape demoNetflix).2.2 demoSubEntry
    (by rw [demo_subscriptionsOut]; simp)

end SimpleFinances
